import Mathlib

/-! # sql_to_mysql: the migration engine

A shallow embedding of `internal/utils/types.go` and of `migrateSchema` and
`runMigration` in `cmd/root.go`, with the properties of the type translation,
of the generated SQL text, of one table task and of the scheduling of tasks.
-/

namespace SqlToMysql

/-! ## `internal/utils/types.go` -/

/-- The function `MsSQLTypeToMySQL`: the `switch` on the SQL Server type name, with its
`default` branch. -/
def MsSQLTypeToMySQL (dataType : String) : String :=
  if dataType = "bit" then "TINYINT(1)"
  else if dataType = "tinyint" then "TINYINT"
  else if dataType = "smallint" then "SMALLINT"
  else if dataType = "int" then "INT"
  else if dataType = "bigint" then "BIGINT"
  else if dataType = "numeric" then "DECIMAL"
  else if dataType = "decimal" then "DECIMAL"
  else if dataType = "smallmoney" then "DECIMAL(6, 4)"
  else if dataType = "money" then "DECIMAL(19, 4)"
  else if dataType = "float" then "DOUBLE"
  else if dataType = "real" then "FLOAT"
  else if dataType = "date" then "DATE"
  else if dataType = "time" then "TIME"
  else if dataType = "datetime" then "DATETIME"
  else if dataType = "datetime2" then "DATETIME"
  else if dataType = "smalldatetime" then "DATETIME"
  else if dataType = "year" then "YEAR"
  else if dataType = "timestamp" then "DATETIME"
  else if dataType = "char" ∨ dataType = "nchar" then "TEXT"
  else if dataType = "varchar" ∨ dataType = "nvarchar" ∨ dataType = "text"
      ∨ dataType = "ntext" then "TEXT"
  else if dataType = "binary" then "BINARY"
  else if dataType = "varbinary" then "VARBINARY(255)"
  else if dataType = "image" then "BLOB"
  else "TEXT"

/-- The 27 type names that have a `case` of their own in `MsSQLTypeToMySQL`. -/
def knownTypes : List String :=
  ["bit", "tinyint", "smallint", "int", "bigint", "numeric", "decimal", "smallmoney",
   "money", "float", "real", "date", "time", "datetime", "datetime2", "smalldatetime",
   "year", "timestamp", "char", "nchar", "varchar", "nvarchar", "text", "ntext",
   "binary", "varbinary", "image"]

/-! ## Go strings

The strings built by the program consist of the fixed ASCII fragments of its format
strings and of the table, column and type names substituted for `%s`. -/

/-- Go's `strings.Repeat(s, count)`. -/
def stringsRepeat (s : String) : Nat → String
  | 0 => ""
  | n + 1 => s ++ stringsRepeat s n

/-- Go's slice expression `s[:hi]` for a string of ASCII characters, where byte and character
positions coincide. `hi` is a Go `int`; `none` is the run-time panic "slice bounds out of
range". -/
def sliceTo (s : String) (hi : Int) : Option String :=
  if 0 ≤ hi ∧ hi ≤ (s.length : Int) then some ⟨s.data.take hi.toNat⟩ else none

/-! ## `migrateSchema` in `cmd/root.go` -/

/-- The local type `columnInfo` of `migrateSchema`. -/
structure ColumnInfo where
  columnName : String
  dataType : String
  deriving DecidableEq, Repr

/-- One row of the introspection query
`SELECT TABLE_NAME, COLUMN_NAME, DATA_TYPE FROM INFORMATION_SCHEMA.COLUMNS ORDER BY TABLE_NAME`. -/
structure SchemaRow where
  tableName : String
  columnName : String
  dataType : String
  deriving DecidableEq, Repr

/-- The Go map `map[string][]columnInfo`, as the list of its entries, at most one per key. -/
abbrev TableMap := List (String × List ColumnInfo)

/-- The map read `tables[tableName]`: the `nil` slice for a key that is absent. -/
def TableMap.get : TableMap → String → List ColumnInfo
  | [], _ => []
  | (k, v) :: rest, key => if k = key then v else TableMap.get rest key

/-- The map write `tables[tableName] = v`: replaces the entry of the key, or adds one. -/
def TableMap.set : TableMap → String → List ColumnInfo → TableMap
  | [], key, v => [(key, v)]
  | (k, w) :: rest, key, v =>
    if k = key then (k, v) :: rest else (k, w) :: TableMap.set rest key v

/-- The body of the loop `for rows.Next()` of `migrateSchema`, for a row that scans:
`tables[tableName] = append(tables[tableName], columnInfo{columnName, dataType})`. -/
def addRow (tables : TableMap) (r : SchemaRow) : TableMap :=
  tables.set r.tableName (tables.get r.tableName ++ [⟨r.columnName, r.dataType⟩])

/-- The map `tables` after the loop `for rows.Next()` over the introspected rows. -/
def buildTables (rows : List SchemaRow) : TableMap :=
  rows.foldl addRow []

/-- The loop `for i, col := range columns` of `migrateSchema`, writing to the builder `b`;
`len` is `len(columns)` and `i` the index of the first column of the list. -/
def writeColumns (len : Nat) : Nat → List ColumnInfo → String → String
  | _, [], b => b
  | i, col :: rest, b =>
    let b1 := b ++ ("`" ++ col.columnName ++ "` " ++ MsSQLTypeToMySQL col.dataType)
    let b2 := if (i : Int) < (len : Int) - 1 then b1 ++ "," else b1
    writeColumns len (i + 1) rest (b2 ++ "\n")

/-- The text `createTable.String()` that `migrateSchema` builds for one entry of `tables`. -/
def createTableStatement (tableName : String) (columns : List ColumnInfo) : String :=
  writeColumns columns.length 0 columns ("CREATE TABLE `" ++ tableName ++ "` (\n") ++ ");"

/-- The statements that the loop `for tableName, columns := range tables` of `migrateSchema`
generates, each with its table. Go leaves the order of a map iteration open; the entries are
taken here in the order in which their keys were first written. -/
def migrateSchemaStatements (rows : List SchemaRow) : List (String × String) :=
  (buildTables rows).map (fun e => (e.1, createTableStatement e.1 e.2))

/-- The columns of table `t` among the introspected rows, in the order of the rows. -/
def columnsOf (rows : List SchemaRow) (t : String) : List ColumnInfo :=
  (rows.filter (fun r => r.tableName = t)).map (fun r => ⟨r.columnName, r.dataType⟩)

/-- The text of one column definition: the quoted column name and the translated type. -/
def columnItem (c : ColumnInfo) : String :=
  "`" ++ c.columnName ++ "` " ++ MsSQLTypeToMySQL c.dataType

/-- The state of the map `tables` after the rows `pre` have been read: one entry for each
table met so far, holding the columns of its rows in the order of the rows. -/
def TablesInv (m : TableMap) (pre : List SchemaRow) : Prop :=
  (m.map Prod.fst).Nodup ∧ (∀ t, m.get t = columnsOf pre t) ∧
    (∀ t, t ∈ m.map Prod.fst ↔ t ∈ pre.map (fun r => r.tableName))

/-! ## One table task of `runMigration` -/

/-- The text `placeholders` of a table task for `n = len(cols)` columns:
`strings.Repeat("?,", n)` cut by `placeholders[:len(placeholders)-1]`. -/
def placeholders (n : Nat) : Option String :=
  let p := stringsRepeat "?," n
  sliceTo p ((p.length : Int) - 1)

/-- The text `fmt.Sprintf("INSERT INTO %s VALUES (%s)", ...)` with the table name quoted, as
in the source. -/
def insertStatement (tbName : String) (ph : String) : String :=
  "INSERT INTO `" ++ tbName ++ "` VALUES (" ++ ph ++ ")"

/-- A non-nil Go `error` value. -/
structure GoError where
  msg : String
  deriving DecidableEq, Repr

/-- A column value as `database/sql` stores it in an `interface{}` holder (`nil` for SQL
NULL); the task only moves these values, it never inspects them. -/
inductive Value where
  | null
  | int64 (v : Int)
  | bool (b : Bool)
  | bytes (b : List Nat)
  | str (s : String)
  deriving DecidableEq, Repr

/-- What the two databases do during one iteration of the loop `for data.Next()`, that is
after a call of `data.Next()` that returned `true`. -/
structure RowStep where
  /-- The values of the row, which `data.Scan(colVals...)` stores in the holders. -/
  row : List Value
  /-- The error returned by `data.Scan`, `none` for `nil`. -/
  scanErr : Option GoError
  /-- The error returned by `mysqlDB.Exec` for the INSERT of this row, `none` for `nil`. -/
  execErr : Option GoError
  /-- The value of `data.Err()` read after the INSERT inside the loop, `none` for `nil`. -/
  iterErr : Option GoError
  deriving DecidableEq, Repr

/-- A row step in which the scan, the INSERT and the check of `data.Err()` all succeed. -/
def RowStep.succeeds (st : RowStep) : Prop :=
  st.scanErr = none ∧ st.execErr = none ∧ st.iterErr = none

instance (st : RowStep) : Decidable st.succeeds := by
  unfold RowStep.succeeds
  infer_instance

/-- The behaviour of a read cursor `*sql.Rows` that was opened. -/
structure Cursor where
  /-- The column names returned by `data.Columns()`. -/
  cols : List String
  /-- One entry for each call of `data.Next()` that returns `true`. -/
  steps : List RowStep
  /-- The value of `data.Err()` once `data.Next()` has returned `false`: `none` when the
  result set was exhausted, an error when the iteration broke off. -/
  endErr : Option GoError
  deriving DecidableEq, Repr

/-- The behaviour of the databases towards one table task: the result of
`sqlserverDB.Query("SELECT * FROM [tbName]")`. -/
structure TaskEnv where
  query : Except GoError Cursor

/-- What one table task did, as seen from outside the goroutine. -/
structure TaskResult where
  /-- The values sent on `errChan`, in order; `none` is `nil`. -/
  sent : List (Option GoError)
  /-- The number of calls of `data.Next()` that returned `true`. -/
  rowsRead : Nat
  /-- The number of calls of `mysqlDB.Exec`. -/
  execCalls : Nat
  /-- The INSERTs that `mysqlDB.Exec` executed without error, in order: statement text and
  bound values. -/
  execs : List (String × List Value)
  /-- Whether the deferred function with `<-sem` ran. -/
  released : Bool
  /-- Whether the goroutine ended in a run-time panic. -/
  panicked : Bool
  deriving DecidableEq, Repr

/-- The slice `vals`: `make([]interface{}, n)` filled by
`for i, colVal := range colVals { vals[i] = *colVal.(*interface{}) }`. -/
def bindVals (n : Nat) (colVals : List Value) : List Value :=
  colVals.enum.foldl (fun vals p => vals.set p.1 p.2) (List.replicate n Value.null)

/-- The loop `for data.Next()` of a table task up to the end of the goroutine body, for the
table `tbName`, the placeholder text `ph` and `n = len(cols)`. The fields `released` and
`panicked` are set by `runTask`. -/
def copyRows (tbName ph : String) (n : Nat) : List RowStep → TaskResult
  | [] =>
    -- `data.Next()` returned false: log the end of the table, `errChan <- nil`
    { sent := [none], rowsRead := 0, execCalls := 0, execs := [],
      released := false, panicked := false }
  | st :: rest =>
    match st.scanErr with
    | some e =>
      { sent := [some e], rowsRead := 1, execCalls := 0, execs := [],
        released := false, panicked := false }
    | none =>
      let vals := bindVals n st.row
      let statement := insertStatement tbName ph
      match st.execErr with
      | some e =>
        { sent := [some e], rowsRead := 1, execCalls := 1, execs := [],
          released := false, panicked := false }
      | none =>
        match st.iterErr with
        | some e =>
          { sent := [some e], rowsRead := 1, execCalls := 1, execs := [(statement, vals)],
            released := false, panicked := false }
        | none =>
          let r := copyRows tbName ph n rest
          { r with rowsRead := r.rowsRead + 1, execCalls := r.execCalls + 1,
                   execs := (statement, vals) :: r.execs }

/-- The goroutine `go func(tbName string)` of `runMigration`. When the query fails the
goroutine returns before its `defer` statement is reached; otherwise the deferred function
runs when the goroutine ends, also when it ends in the panic of the slice expression. -/
def runTask (tbName : String) (env : TaskEnv) : TaskResult :=
  match env.query with
  | .error e =>
    { sent := [some e], rowsRead := 0, execCalls := 0, execs := [],
      released := false, panicked := false }
  | .ok data =>
    match placeholders data.cols.length with
    | none =>
      { sent := [], rowsRead := 0, execCalls := 0, execs := [],
        released := true, panicked := true }
    | some ph =>
      { copyRows tbName ph data.cols.length data.steps with released := true }

/-! ## The goroutines of `runMigration`

The main goroutine runs the scheduling loop and then the loop that receives the outcomes;
each table task is a goroutine of its own. Tasks differ only in the point of their code
they have reached, so the state counts the tasks at each point. The enumeration of the
tables is taken to succeed, and tables of the exclusion set, for which the scheduling loop
does nothing, are left out of the count of tables still to come. -/

/-- The capacity of the channel `sem`: `make(chan bool, 150)`. -/
def poolCapacity : Nat := 150

/-- The point the main goroutine has reached in `runMigration`. -/
inductive MainPc where
  /-- At `rows.Next()` of the scheduling loop. -/
  | next
  /-- After `tablesCount++`, at `sem <- true`. -/
  | acquire
  /-- At `go func(tbName string)`. -/
  | spawn
  /-- In the loop `for i := 0; i < tablesCount; i++`, at `<-errChan`. -/
  | collect
  /-- Past the loop that receives the outcomes. -/
  | finished
  /-- In `logs.FatalLog`, which ends the process. -/
  | fatal
  deriving DecidableEq, Repr

/-- A state of `runMigration` with its table tasks. -/
structure Sched where
  pc : MainPc
  /-- The tables outside the exclusion set that `rows.Next()` has still to yield. -/
  remaining : Nat
  tablesCount : Nat
  /-- The loop variable `i`: the number of outcomes received from `errChan`. -/
  received : Nat
  /-- The number of values in the channel `sem`: the slots held. -/
  sem : Nat
  /-- Tasks started, at `sqlserverDB.Query`. -/
  opening : Nat
  /-- Tasks past their `defer` statement that have not reached a send on `errChan`. -/
  copying : Nat
  /-- Tasks at `errChan <- nil`. -/
  sendingNil : Nat
  /-- Tasks past their `defer` statement at `errChan <- err`. -/
  sendingErr : Nat
  /-- Tasks at the `errChan <- err` that follows a failed query, before the `defer`. -/
  sendingQueryErr : Nat
  /-- Tasks past their send whose deferred function, with `<-sem`, has still to run. -/
  deferred : Nat
  /-- Tasks past the send that follows a failed query, at `return`. -/
  returning : Nat
  /-- Tasks whose goroutine has ended. -/
  exited : Nat
  deriving DecidableEq, Repr

/-- The number of tasks that have been started and have not yet exited. -/
def Sched.running (s : Sched) : Nat :=
  s.opening + s.copying + s.sendingNil + s.sendingErr + s.sendingQueryErr + s.deferred
    + s.returning

/-- The state in which `runMigration` enters the scheduling loop with `n` tables to come. -/
def Sched.initial (n : Nat) : Sched :=
  { pc := .next, remaining := n, tablesCount := 0, received := 0, sem := 0, opening := 0,
    copying := 0, sendingNil := 0, sendingErr := 0, sendingQueryErr := 0, deferred := 0,
    returning := 0, exited := 0 }

/-- The atomic steps of the goroutines. -/
inductive Action where
  /-- `rows.Next()` yields a table: `tablesCount++`. -/
  | nextTable
  /-- `rows.Next()` returns false: the scheduling loop ends. -/
  | endOfTables
  /-- `sem <- true`, which blocks while the channel holds 150 values. -/
  | acquire
  /-- `go func(tbName string)`. -/
  | spawn
  /-- `sqlserverDB.Query` returns a cursor; the `defer` statement is executed. -/
  | queryOk
  /-- `sqlserverDB.Query` returns an error. -/
  | queryFail
  /-- The row loop ends and the task reaches `errChan <- nil`. -/
  | copyDone
  /-- A scan, an INSERT or the check of `data.Err()` fails in the row loop. -/
  | copyFail
  /-- The main goroutine receives a `nil` outcome from a task. -/
  | deliverNil
  /-- The main goroutine receives the error of a task past its `defer` statement. -/
  | deliverErr
  /-- The main goroutine receives the error of a failed query. -/
  | deliverQueryErr
  /-- The deferred function runs `<-sem` and the goroutine ends. -/
  | release
  /-- The goroutine of a failed query returns; no deferred function was registered. -/
  | exitUnreleased
  /-- The loop that receives the outcomes ends, `i` having reached `tablesCount`. -/
  | finish
  deriving DecidableEq, Repr

/-- Whether the action is a failure of a database operation of a task. -/
def Action.isFailure : Action → Bool
  | .queryFail => true
  | .copyFail => true
  | _ => false

/-- The step function of the goroutines: `none` when the action is not enabled in the state.
A send on the unbuffered channel `errChan` and its receive by the main goroutine are one
step. Once the main goroutine is in `logs.FatalLog` no outcome is received any more. -/
def step (a : Action) (s : Sched) : Option Sched :=
  match a with
  | .nextTable =>
    if s.pc = .next ∧ 0 < s.remaining then
      some { s with pc := .acquire, remaining := s.remaining - 1,
                    tablesCount := s.tablesCount + 1 }
    else none
  | .endOfTables =>
    if s.pc = .next ∧ s.remaining = 0 then some { s with pc := .collect } else none
  | .acquire =>
    if s.pc = .acquire ∧ s.sem < poolCapacity then
      some { s with pc := .spawn, sem := s.sem + 1 }
    else none
  | .spawn =>
    if s.pc = .spawn then some { s with pc := .next, opening := s.opening + 1 } else none
  | .queryOk =>
    if 0 < s.opening then
      some { s with opening := s.opening - 1, copying := s.copying + 1 }
    else none
  | .queryFail =>
    if 0 < s.opening then
      some { s with opening := s.opening - 1, sendingQueryErr := s.sendingQueryErr + 1 }
    else none
  | .copyDone =>
    if 0 < s.copying then
      some { s with copying := s.copying - 1, sendingNil := s.sendingNil + 1 }
    else none
  | .copyFail =>
    if 0 < s.copying then
      some { s with copying := s.copying - 1, sendingErr := s.sendingErr + 1 }
    else none
  | .deliverNil =>
    if s.pc = .collect ∧ s.received < s.tablesCount ∧ 0 < s.sendingNil then
      some { s with received := s.received + 1, sendingNil := s.sendingNil - 1,
                    deferred := s.deferred + 1 }
    else none
  | .deliverErr =>
    if s.pc = .collect ∧ s.received < s.tablesCount ∧ 0 < s.sendingErr then
      some { s with pc := .fatal, received := s.received + 1,
                    sendingErr := s.sendingErr - 1, deferred := s.deferred + 1 }
    else none
  | .deliverQueryErr =>
    if s.pc = .collect ∧ s.received < s.tablesCount ∧ 0 < s.sendingQueryErr then
      some { s with pc := .fatal, received := s.received + 1,
                    sendingQueryErr := s.sendingQueryErr - 1, returning := s.returning + 1 }
    else none
  | .release =>
    if 0 < s.deferred ∧ 0 < s.sem then
      some { s with deferred := s.deferred - 1, sem := s.sem - 1, exited := s.exited + 1 }
    else none
  | .exitUnreleased =>
    if 0 < s.returning then
      some { s with returning := s.returning - 1, exited := s.exited + 1 }
    else none
  | .finish =>
    if s.pc = .collect ∧ s.received = s.tablesCount then some { s with pc := .finished }
    else none

/-- The state after a sequence of actions, `none` when one of them is not enabled. -/
def runActions : List Action → Sched → Option Sched
  | [], s => some s
  | a :: rest, s => (step a s).bind (runActions rest)

/-- The states that `runMigration` reaches with `n` tables, under some interleaving. -/
def Reachable (n : Nat) (s : Sched) : Prop :=
  ∃ acts : List Action, runActions acts (Sched.initial n) = some s

/-- The states that `runMigration` reaches with `n` tables when no database operation of a
task fails. -/
def ReachableWithoutFailure (n : Nat) (s : Sched) : Prop :=
  ∃ acts : List Action, (∀ a ∈ acts, a.isFailure = false) ∧
    runActions acts (Sched.initial n) = some s

/-- A state in which no goroutine can take a step. -/
def Stuck (s : Sched) : Prop := ∀ a : Action, step a s = none

/-- The invariant of the slots: every running task, and the task about to be started, holds
a slot of its own, and the channel `sem` is within its capacity. -/
def SlotInv (s : Sched) : Prop :=
  s.running + (if s.pc = .spawn then 1 else 0) ≤ s.sem ∧ s.sem ≤ poolCapacity

/-- The actions by which one table is scheduled and its task runs up to `errChan <- nil`. -/
def scheduleRound : List Action :=
  [.nextTable, .acquire, .spawn, .queryOk, .copyDone]

/-- The state after `k` tables were scheduled and their tasks all wait at `errChan <- nil`,
the main goroutine being at the point `pc`. -/
def Sched.blocked (pc : MainPc) (n k : Nat) : Sched :=
  { pc := pc, remaining := n, tablesCount := k, received := 0, sem := k, opening := 0,
    copying := 0, sendingNil := k, sendingErr := 0, sendingQueryErr := 0, deferred := 0,
    returning := 0, exited := 0 }

/-- The state in which 150 tasks wait at `errChan <- nil` and the main goroutine, having
counted table 151, waits at `sem <- true`, with `n` tables still to come. -/
def Sched.saturated (n : Nat) : Sched :=
  { pc := .acquire, remaining := n, tablesCount := 151, received := 0, sem := 150,
    opening := 0, copying := 0, sendingNil := 150, sendingErr := 0, sendingQueryErr := 0,
    deferred := 0, returning := 0, exited := 0 }

/-! ## The goroutines of `runMigration`, with the enumerated names

The same goroutines with the table names that `rows.Next()` yields and the test of the
exclusion set in the scheduling loop. `excludedTables` is the map of the source, a missing
key reading `false`; the source initialises it to the empty map. -/

/-- A state of `runMigration` with the names of the tables. -/
structure Run where
  pc : MainPc
  /-- The table names that `rows.Next()` has still to yield, in order. -/
  pending : List String
  /-- The loop variable `tableName` of the scheduling loop. -/
  tableName : String
  /-- The argument `tbName` of every `go func(tbName string)` executed so far, in order. -/
  started : List String
  tablesCount : Nat
  /-- The loop variable `i`: the number of outcomes received from `errChan`. -/
  received : Nat
  /-- The number of values in the channel `sem`. -/
  sem : Nat
  /-- Tasks started, at `sqlserverDB.Query`. -/
  opening : Nat
  /-- Tasks past their `defer` statement that have not reached a send on `errChan`. -/
  copying : Nat
  /-- Tasks at `errChan <- nil`. -/
  sendingNil : Nat
  /-- Tasks past their `defer` statement at `errChan <- err`. -/
  sendingErr : Nat
  /-- Tasks at the `errChan <- err` that follows a failed query, before the `defer`. -/
  sendingQueryErr : Nat
  /-- Tasks past their send whose deferred function, with `<-sem`, has still to run. -/
  deferred : Nat
  /-- Tasks past the send that follows a failed query, at `return`. -/
  returning : Nat
  /-- Tasks whose goroutine has ended. -/
  exited : Nat
  deriving DecidableEq, Repr

/-- The state in which `runMigration` enters the scheduling loop, the enumeration query
yielding `names`. -/
def Run.initial (names : List String) : Run :=
  { pc := .next, pending := names, tableName := "", started := [], tablesCount := 0,
    received := 0, sem := 0, opening := 0, copying := 0, sendingNil := 0, sendingErr := 0,
    sendingQueryErr := 0, deferred := 0, returning := 0, exited := 0 }

/-- The atomic steps of the goroutines when the names are kept: those of `Action`, and the
`continue` of the scheduling loop at a table of the exclusion set. -/
inductive RunAction where
  /-- `rows.Next()` yields a table of the exclusion set: `continue`. -/
  | skipExcluded
  /-- One of the other steps; `nextTable` is then the step at a table that is not excluded. -/
  | act (a : Action)
  deriving DecidableEq, Repr

/-- The step function of the goroutines with the names: `none` when the action is not
enabled. As in `step`, a send on `errChan` and its receive are one step, which only takes
place while the main goroutine is in its receiving loop with `i < tablesCount`; once the
main goroutine is in `logs.FatalLog` no outcome is received any more. -/
def runStep (excludedTables : String → Bool) (a : RunAction) (r : Run) : Option Run :=
  match a with
  | .skipExcluded =>
    match r.pending with
    | t :: rest =>
      if r.pc = .next ∧ excludedTables t = true then some { r with pending := rest } else none
    | [] => none
  | .act .nextTable =>
    match r.pending with
    | t :: rest =>
      if r.pc = .next ∧ excludedTables t = false then
        some { r with pc := .acquire, pending := rest, tableName := t,
                      tablesCount := r.tablesCount + 1 }
      else none
    | [] => none
  | .act .endOfTables =>
    if r.pc = .next ∧ r.pending = [] then some { r with pc := .collect } else none
  | .act .acquire =>
    if r.pc = .acquire ∧ r.sem < poolCapacity then
      some { r with pc := .spawn, sem := r.sem + 1 }
    else none
  | .act .spawn =>
    if r.pc = .spawn then
      some { r with pc := .next, started := r.started ++ [r.tableName],
                    opening := r.opening + 1 }
    else none
  | .act .queryOk =>
    if 0 < r.opening then
      some { r with opening := r.opening - 1, copying := r.copying + 1 }
    else none
  | .act .queryFail =>
    if 0 < r.opening then
      some { r with opening := r.opening - 1, sendingQueryErr := r.sendingQueryErr + 1 }
    else none
  | .act .copyDone =>
    if 0 < r.copying then
      some { r with copying := r.copying - 1, sendingNil := r.sendingNil + 1 }
    else none
  | .act .copyFail =>
    if 0 < r.copying then
      some { r with copying := r.copying - 1, sendingErr := r.sendingErr + 1 }
    else none
  | .act .deliverNil =>
    if r.pc = .collect ∧ r.received < r.tablesCount ∧ 0 < r.sendingNil then
      some { r with received := r.received + 1, sendingNil := r.sendingNil - 1,
                    deferred := r.deferred + 1 }
    else none
  | .act .deliverErr =>
    if r.pc = .collect ∧ r.received < r.tablesCount ∧ 0 < r.sendingErr then
      some { r with pc := .fatal, received := r.received + 1,
                    sendingErr := r.sendingErr - 1, deferred := r.deferred + 1 }
    else none
  | .act .deliverQueryErr =>
    if r.pc = .collect ∧ r.received < r.tablesCount ∧ 0 < r.sendingQueryErr then
      some { r with pc := .fatal, received := r.received + 1,
                    sendingQueryErr := r.sendingQueryErr - 1, returning := r.returning + 1 }
    else none
  | .act .release =>
    if 0 < r.deferred ∧ 0 < r.sem then
      some { r with deferred := r.deferred - 1, sem := r.sem - 1, exited := r.exited + 1 }
    else none
  | .act .exitUnreleased =>
    if 0 < r.returning then
      some { r with returning := r.returning - 1, exited := r.exited + 1 }
    else none
  | .act .finish =>
    if r.pc = .collect ∧ r.received = r.tablesCount then some { r with pc := .finished }
    else none

/-- The state after a sequence of actions, `none` when one of them is not enabled. -/
def runSteps (excludedTables : String → Bool) : List RunAction → Run → Option Run
  | [], r => some r
  | a :: rest, r => (runStep excludedTables a r).bind (runSteps excludedTables rest)

/-- The states that `runMigration` reaches when the enumeration yields `names`, under some
interleaving. -/
def RunReachable (excludedTables : String → Bool) (names : List String) (r : Run) : Prop :=
  ∃ acts : List RunAction, runSteps excludedTables acts (Run.initial names) = some r

/-- The enumerated names outside the exclusion set, in order. -/
def notExcluded (excludedTables : String → Bool) (names : List String) : List String :=
  names.filter (fun t => !excludedTables t)

/-- The tables counted in `tablesCount` so far: those whose task was started and, while the
main goroutine is at `sem <- true` or at `go func`, the table `tableName`. -/
def Run.counted (r : Run) : List String :=
  r.started ++ (if r.pc = .acquire ∨ r.pc = .spawn then [r.tableName] else [])

/-- The number of tasks that have been started and have not yet exited. -/
def Run.running (r : Run) : Nat :=
  r.opening + r.copying + r.sendingNil + r.sendingErr + r.sendingQueryErr + r.deferred
    + r.returning

/-- The state of `Sched` that a state with names stands for. -/
def Run.toSched (excludedTables : String → Bool) (r : Run) : Sched :=
  { pc := r.pc, remaining := (notExcluded excludedTables r.pending).length,
    tablesCount := r.tablesCount, received := r.received, sem := r.sem,
    opening := r.opening, copying := r.copying, sendingNil := r.sendingNil,
    sendingErr := r.sendingErr, sendingQueryErr := r.sendingQueryErr,
    deferred := r.deferred, returning := r.returning, exited := r.exited }

/-- The invariant of the counts of `runMigration` when the enumeration yields `names`. -/
def RunInv (excludedTables : String → Bool) (names : List String) (r : Run) : Prop :=
  r.tablesCount = r.counted.length ∧
  r.counted ++ notExcluded excludedTables r.pending = notExcluded excludedTables names ∧
  r.started.length = r.running + r.exited ∧
  r.received = r.deferred + r.returning + r.exited ∧
  (r.pc = .next ∨ r.pc = .acquire ∨ r.pc = .spawn → r.received = 0) ∧
  (r.pc = .collect ∨ r.pc = .finished ∨ r.pc = .fatal → r.pending = []) ∧
  (r.pc = .finished → r.received = r.tablesCount)

/-! ## Lemmas on strings -/

theorem intercalate_go_append (a b s : String) (l : List String) :
    String.intercalate.go (a ++ b) s l = a ++ String.intercalate.go b s l := by
  induction l generalizing b with
  | nil => simp [String.intercalate.go]
  | cons x xs ih =>
    simp only [String.intercalate.go]
    rw [String.append_assoc, String.append_assoc, ih, String.append_assoc]

theorem intercalate_singleton (s a : String) : String.intercalate s [a] = a := by
  simp [String.intercalate, String.intercalate.go]

theorem intercalate_cons_cons (s a b : String) (l : List String) :
    String.intercalate s (a :: b :: l) = a ++ (s ++ String.intercalate s (b :: l)) := by
  simp only [String.intercalate, String.intercalate.go]
  rw [String.append_assoc, intercalate_go_append, intercalate_go_append]

theorem stringsRepeat_succ_eq (n : Nat) :
    stringsRepeat "?," (n + 1) = String.intercalate "," (List.replicate (n + 1) "?") ++ "," := by
  induction n with
  | zero => decide
  | succ k ih =>
    have hc : String.intercalate "," (List.replicate (k + 1 + 1) "?")
        = "?" ++ ("," ++ String.intercalate "," (List.replicate (k + 1) "?")) := by
      rw [List.replicate_succ, List.replicate_succ, intercalate_cons_cons,
        ← List.replicate_succ]
    have h : ("?," : String) = "?" ++ "," := by decide
    rw [stringsRepeat, ih, hc, h]
    simp only [String.append_assoc]

theorem sliceTo_append_one (x : String) :
    sliceTo (x ++ ",") (((x ++ ",").length : Int) - 1) = some x := by
  have hl : (x ++ ",").length = x.length + 1 := by
    have h1 : (",": String).length = 1 := by decide
    rw [String.length_append, h1]
  have hd : (x ++ ",").data = x.data ++ [','] := by
    rw [String.data_append]
  unfold sliceTo
  rw [hl, hd]
  have h1 : ((x.length + 1 : Nat) : Int) - 1 = (x.length : Int) := by push_cast; ring
  rw [h1]
  have h2 : (0 : Int) ≤ (x.length : Int) ∧ (x.length : Int) ≤ ((x.length + 1 : Nat) : Int) := by
    constructor <;> omega
  rw [if_pos h2]
  have h3 : (x.length : Int).toNat = x.data.length := by
    rw [Int.toNat_ofNat]; cases x; rfl
  rw [h3, List.take_left]

theorem placeholders_succ (n : Nat) :
    placeholders (n + 1) = some (String.intercalate "," (List.replicate (n + 1) "?")) := by
  unfold placeholders
  simp only [stringsRepeat_succ_eq]
  exact sliceTo_append_one _

theorem count_qmark_intercalate (n : Nat) :
    (String.intercalate "," (List.replicate n "?")).data.count '?' = n := by
  induction n with
  | zero => decide
  | succ k ih =>
    cases k with
    | zero => decide
    | succ j =>
      rw [List.replicate_succ, List.replicate_succ, intercalate_cons_cons,
        ← List.replicate_succ, String.data_append, String.data_append, List.count_append,
        List.count_append, ih]
      have h1 : ("?" : String).data.count '?' = 1 := by decide
      have h2 : ("," : String).data.count '?' = 0 := by decide
      rw [h1, h2]; omega

theorem bindVals_fold (pre : List Value) (l rest : List Value)
    (hrest : rest.length = l.length) :
    (l.enumFrom pre.length).foldl (fun vals p => vals.set p.1 p.2) (pre ++ rest)
      = pre ++ l := by
  induction l generalizing pre rest with
  | nil =>
    have : rest = [] := List.length_eq_zero.mp (by simpa using hrest)
    simp [this]
  | cons x xs ih =>
    cases rest with
    | nil => simp at hrest
    | cons y ys =>
      simp only [List.enumFrom_cons, List.foldl_cons]
      have hset : (pre ++ y :: ys).set pre.length x = (pre ++ [x]) ++ ys := by
        simp [List.set_append]
      rw [hset]
      have hlen : pre.length + 1 = (pre ++ [x]).length := by simp
      rw [hlen, ih (pre ++ [x]) ys (by simpa using hrest)]
      simp

theorem bindVals_self (colVals : List Value) : bindVals colVals.length colVals = colVals := by
  have h := bindVals_fold [] colVals (List.replicate colVals.length Value.null) (by simp)
  simpa [bindVals, List.enum] using h

/-! ## Lemmas on `migrateSchema` -/

theorem writeColumns_cons (len i : Nat) (col : ColumnInfo) (rest : List ColumnInfo)
    (b : String) :
    writeColumns len i (col :: rest) b
      = writeColumns len (i + 1) rest
          ((if (i : Int) < (len : Int) - 1 then b ++ columnItem col ++ ","
            else b ++ columnItem col) ++ "\n") := rfl

theorem writeColumns_eq (len : Nat) (cols : List ColumnInfo) (hne : cols ≠ []) (i : Nat)
    (hi : i + cols.length = len) (b : String) :
    writeColumns len i cols b
      = b ++ (String.intercalate ",\n" (cols.map columnItem) ++ "\n") := by
  induction cols generalizing i b with
  | nil => exact absurd rfl hne
  | cons c rest ih =>
    cases rest with
    | nil =>
      have hlast : ¬ ((i : Int) < (len : Int) - 1) := by
        simp only [List.length_cons, List.length_nil] at hi; omega
      rw [writeColumns_cons, if_neg hlast]
      simp only [writeColumns, List.map_cons, List.map_nil,
        intercalate_singleton, String.append_assoc]
    | cons d ds =>
      have hmore : (i : Int) < (len : Int) - 1 := by
        simp only [List.length_cons] at hi; omega
      have hrec := ih (List.cons_ne_nil d ds) (i + 1)
        (by simp only [List.length_cons] at hi ⊢; omega)
      have hsep : ("," : String) ++ "\n" = ",\n" := by decide
      rw [writeColumns_cons, if_pos hmore, hrec, List.map_cons (f := columnItem) (a := c),
        List.map_cons, intercalate_cons_cons, ← List.map_cons, ← hsep]
      simp only [String.append_assoc]

theorem createTableStatement_eq (t : String) (cols : List ColumnInfo) (hne : cols ≠ []) :
    createTableStatement t cols
      = "CREATE TABLE `" ++ t ++ "` (\n" ++ String.intercalate ",\n" (cols.map columnItem)
          ++ "\n);" := by
  have hend : ("\n" : String) ++ ");" = "\n);" := by decide
  unfold createTableStatement
  rw [writeColumns_eq cols.length cols hne 0 (by simp), ← hend]
  simp only [String.append_assoc]

theorem TableMap.get_set (m : TableMap) (k k2 : String) (v : List ColumnInfo) :
    (m.set k v).get k2 = if k = k2 then v else m.get k2 := by
  induction m with
  | nil => simp [TableMap.set, TableMap.get]
  | cons e rest ih =>
    obtain ⟨a, w⟩ := e
    by_cases hak : a = k
    · subst hak
      by_cases h2 : a = k2 <;> simp [TableMap.set, TableMap.get, h2]
    · by_cases h2 : a = k2
      · subst h2
        simp [TableMap.set, TableMap.get, hak, Ne.symm hak]
      · simp [TableMap.set, TableMap.get, hak, h2, ih]

theorem TableMap.keys_set (m : TableMap) (k : String) (v : List ColumnInfo) :
    (m.set k v).map Prod.fst
      = if k ∈ m.map Prod.fst then m.map Prod.fst else m.map Prod.fst ++ [k] := by
  induction m with
  | nil => simp [TableMap.set]
  | cons e rest ih =>
    obtain ⟨a, w⟩ := e
    by_cases hak : a = k
    · subst hak
      simp [TableMap.set]
    · have hka : ¬ k = a := fun h => hak h.symm
      simp only [TableMap.set, if_neg hak, List.map_cons, ih, List.mem_cons, hka, false_or]
      by_cases hmem : k ∈ rest.map Prod.fst <;> simp [hmem]

theorem TableMap.get_of_mem (m : TableMap) (hnd : (m.map Prod.fst).Nodup) (k : String)
    (v : List ColumnInfo) (hmem : (k, v) ∈ m) : m.get k = v := by
  induction m with
  | nil => simp at hmem
  | cons e rest ih =>
    obtain ⟨a, w⟩ := e
    simp only [List.map_cons, List.nodup_cons] at hnd
    rcases List.mem_cons.mp hmem with h | h
    · cases h
      simp [TableMap.get]
    · have hne : ¬ a = k := by
        intro hak
        subst hak
        exact hnd.1 (List.mem_map_of_mem Prod.fst h)
      simp [TableMap.get, hne, ih hnd.2 h]

theorem TableMap.mem_of_key (m : TableMap) (k : String) (hk : k ∈ m.map Prod.fst) :
    (k, m.get k) ∈ m := by
  induction m with
  | nil => simp at hk
  | cons e rest ih =>
    obtain ⟨a, w⟩ := e
    by_cases hak : a = k
    · subst hak
      simp [TableMap.get]
    · have hk2 : k ∈ rest.map Prod.fst := by
        simp only [List.map_cons, List.mem_cons] at hk
        rcases hk with h | h
        · exact absurd h.symm hak
        · exact h
      simp only [TableMap.get, if_neg hak]
      exact List.mem_cons_of_mem _ (ih hk2)

theorem columnsOf_append_one (pre : List SchemaRow) (r : SchemaRow) (t : String) :
    columnsOf (pre ++ [r]) t
      = columnsOf pre t ++ (if r.tableName = t then [⟨r.columnName, r.dataType⟩] else []) := by
  unfold columnsOf
  by_cases h : r.tableName = t <;> simp [List.filter_append, List.filter_cons, h]

theorem TablesInv_addRow (m : TableMap) (pre : List SchemaRow) (r : SchemaRow)
    (h : TablesInv m pre) : TablesInv (addRow m r) (pre ++ [r]) := by
  obtain ⟨hnd, hget, hkeys⟩ := h
  refine ⟨?_, ?_, ?_⟩
  · unfold addRow
    rw [TableMap.keys_set]
    by_cases hmem : r.tableName ∈ m.map Prod.fst
    · simpa [hmem] using hnd
    · rw [if_neg hmem]
      exact List.Nodup.append hnd (List.nodup_singleton _) (by simpa using hmem)
  · intro t
    unfold addRow
    rw [TableMap.get_set, columnsOf_append_one, hget]
    by_cases h : r.tableName = t
    · subst h; simp
    · simp [h, hget]
  · intro t
    unfold addRow
    rw [TableMap.keys_set]
    by_cases hmem : r.tableName ∈ m.map Prod.fst
    · rw [if_pos hmem, hkeys]
      simp only [List.map_append, List.mem_append, List.map_cons, List.map_nil,
        List.mem_singleton]
      constructor
      · exact Or.inl
      · rintro (h | h)
        · exact h
        · subst h; exact (hkeys _).mp hmem
    · rw [if_neg hmem]
      simp only [List.map_append, List.mem_append, List.map_cons, List.map_nil,
        List.mem_singleton, hkeys]

theorem TablesInv_foldl (rows : List SchemaRow) (m : TableMap) (pre : List SchemaRow)
    (h : TablesInv m pre) : TablesInv (rows.foldl addRow m) (pre ++ rows) := by
  induction rows generalizing m pre with
  | nil => simpa using h
  | cons r rest ih =>
    have h2 := ih (addRow m r) (pre ++ [r]) (TablesInv_addRow m pre r h)
    simpa using h2

theorem buildTables_inv (rows : List SchemaRow) : TablesInv (buildTables rows) rows := by
  have h := TablesInv_foldl rows [] [] ⟨by simp, by intro t; simp [TableMap.get, columnsOf],
    by intro t; simp⟩
  simpa [buildTables] using h

theorem columnsOf_ne_nil (rows : List SchemaRow) (t : String)
    (ht : t ∈ rows.map (fun r => r.tableName)) : columnsOf rows t ≠ [] := by
  obtain ⟨r, hr, hrt⟩ := List.mem_map.mp ht
  intro hnil
  have hmem : r ∈ rows.filter (fun r => decide (r.tableName = t)) :=
    List.mem_filter.mpr ⟨hr, by simpa using hrt⟩
  unfold columnsOf at hnil
  rw [List.map_eq_nil_iff] at hnil
  rw [hnil] at hmem
  simp at hmem

/-! ## Lemmas on one table task -/

theorem copyRows_sent_length (t ph : String) (n : Nat) (steps : List RowStep) :
    (copyRows t ph n steps).sent.length = 1 := by
  induction steps with
  | nil => rfl
  | cons st rest ih =>
    unfold copyRows
    cases hs : st.scanErr with
    | some e => rfl
    | none =>
      cases he : st.execErr with
      | some e => rfl
      | none =>
        cases hi : st.iterErr with
        | some e => rfl
        | none => simpa using ih

theorem runTask_sent_length (t : String) (env : TaskEnv)
    (hcols : ∀ data, env.query = .ok data → data.cols ≠ []) :
    (runTask t env).sent.length = 1 := by
  unfold runTask
  cases hq : env.query with
  | error e => rfl
  | ok data =>
    obtain ⟨m, hm⟩ : ∃ m, data.cols.length = m + 1 := by
      have h := List.length_pos.mpr (hcols data hq)
      exact ⟨data.cols.length - 1, by omega⟩
    simp only [hm, placeholders_succ]
    exact copyRows_sent_length _ _ _ _

theorem copyRows_append_ok (t ph : String) (n : Nat) (pre rest : List RowStep)
    (hok : ∀ st ∈ pre, st.succeeds) :
    copyRows t ph n (pre ++ rest)
      = { copyRows t ph n rest with
          rowsRead := (copyRows t ph n rest).rowsRead + pre.length,
          execCalls := (copyRows t ph n rest).execCalls + pre.length,
          execs := pre.map (fun st => (insertStatement t ph, bindVals n st.row))
                    ++ (copyRows t ph n rest).execs } := by
  induction pre with
  | nil => rfl
  | cons st more ih =>
    obtain ⟨h1, h2, h3⟩ := hok st (List.mem_cons_self _ _)
    have ih2 := ih (fun s hs => hok s (List.mem_cons_of_mem _ hs))
    rw [List.cons_append, copyRows]
    simp only [h1, h2, h3, ih2, List.length_cons, List.map_cons, List.cons_append]
    simp only [TaskResult.mk.injEq, true_and, and_true]
    constructor <;> omega

theorem copyRows_first_failure (t ph : String) (n : Nat) (st : RowStep) (post : List RowStep)
    (hfail : ¬ st.succeeds) :
    (copyRows t ph n (st :: post)).execs
      = (if st.scanErr = none ∧ st.execErr = none then [st] else []).map
          (fun s => (insertStatement t ph, bindVals n s.row)) := by
  rw [copyRows]
  cases hs : st.scanErr with
  | some e => simp
  | none =>
    cases he : st.execErr with
    | some e => simp
    | none =>
      cases hi : st.iterErr with
      | some e => simp
      | none => exact absurd ⟨hs, he, hi⟩ hfail

theorem map_bindVals_eq (t ph : String) (n : Nat) (l : List RowStep)
    (hrows : ∀ s ∈ l, s.row.length = n) :
    l.map (fun s => (insertStatement t ph, bindVals n s.row))
      = l.map (fun s => (insertStatement t ph, s.row)) := by
  apply List.map_congr_left
  intro s hs
  have h := hrows s hs
  rw [← h, bindVals_self]

/-! ## Lemmas on the goroutines -/

theorem SlotInv_initial (n : Nat) : SlotInv (Sched.initial n) := by
  simp [SlotInv, Sched.initial, Sched.running, poolCapacity]

theorem SlotInv_step (a : Action) (s s2 : Sched) (hinv : SlotInv s)
    (hstep : step a s = some s2) : SlotInv s2 := by
  obtain ⟨h1, h2⟩ := hinv
  unfold Sched.running at h1
  cases a <;> simp only [step] at hstep <;> split at hstep <;>
    first
    | exact Option.noConfusion hstep
    | (simp only [Option.some.injEq] at hstep
       subst hstep
       simp only [SlotInv, Sched.running]
       constructor <;> (split at h1 <;> simp_all <;> omega))

theorem SlotInv_runActions (acts : List Action) (s s2 : Sched) (hinv : SlotInv s)
    (hrun : runActions acts s = some s2) : SlotInv s2 := by
  induction acts generalizing s with
  | nil =>
    simp only [runActions, Option.some.injEq] at hrun
    subst hrun
    exact hinv
  | cons a rest ih =>
    simp only [runActions] at hrun
    cases hs : step a s with
    | none => simp [hs] at hrun
    | some s1 =>
      rw [hs] at hrun
      exact ih s1 (SlotInv_step a s s1 hinv hs) hrun

theorem runActions_append (as bs : List Action) (s : Sched) :
    runActions (as ++ bs) s = (runActions as s).bind (runActions bs) := by
  induction as generalizing s with
  | nil => rfl
  | cons a rest ih =>
    simp only [List.cons_append, runActions]
    cases step a s with
    | none => rfl
    | some s1 => simpa using ih s1

theorem scheduleRound_blocked (n k : Nat) (hk : k < poolCapacity) :
    runActions scheduleRound (Sched.blocked .next (n + 1) k)
      = some (Sched.blocked .next n (k + 1)) := by
  simp [scheduleRound, runActions, step, Sched.blocked, hk]

theorem rounds_blocked (n k : Nat) (hk : k ≤ poolCapacity) :
    runActions (List.replicate k scheduleRound).flatten (Sched.initial (n + k))
      = some (Sched.blocked .next n k) := by
  induction k generalizing n with
  | zero => rfl
  | succ j ih =>
    rw [List.replicate_succ', List.flatten_append, runActions_append]
    have h := ih (n + 1) (by omega)
    have hn : n + 1 + j = n + (j + 1) := by omega
    rw [hn] at h
    rw [h]
    simp only [List.flatten_cons, List.flatten_nil, List.append_nil, Option.bind]
    exact scheduleRound_blocked n j (by omega)

theorem no_failure_in_rounds (k : Nat) :
    ∀ a ∈ (List.replicate k scheduleRound).flatten ++ [Action.nextTable],
      a.isFailure = false := by
  intro a ha
  have hr : ∀ b ∈ scheduleRound, b.isFailure = false := by decide
  rcases List.mem_append.mp ha with h | h
  · obtain ⟨l, hl, hal⟩ := List.mem_flatten.mp h
    rw [List.eq_of_mem_replicate hl] at hal
    exact hr a hal
  · rw [List.mem_singleton.mp h]
    rfl

/-! ## Lemmas on the goroutines with the names -/

theorem notExcluded_cons_excluded (excl : String → Bool) (t : String) (rest : List String)
    (h : excl t = true) : notExcluded excl (t :: rest) = notExcluded excl rest := by
  simp [notExcluded, List.filter_cons, h]

theorem notExcluded_cons_kept (excl : String → Bool) (t : String) (rest : List String)
    (h : excl t = false) : notExcluded excl (t :: rest) = t :: notExcluded excl rest := by
  simp [notExcluded, List.filter_cons, h]

theorem RunInv_initial (excl : String → Bool) (names : List String) :
    RunInv excl names (Run.initial names) := by
  simp [RunInv, Run.initial, Run.counted, Run.running]

theorem RunInv_skip (excl : String → Bool) (names : List String) (r r2 : Run)
    (hinv : RunInv excl names r) (hstep : runStep excl .skipExcluded r = some r2) :
    RunInv excl names r2 := by
  obtain ⟨h1, h2, h3, h4, h5, h6, h7⟩ := hinv
  simp only [runStep] at hstep
  cases hp : r.pending with
  | nil => rw [hp] at hstep; exact Option.noConfusion hstep
  | cons t rest =>
    rw [hp] at hstep
    simp only at hstep
    split at hstep
    · rename_i hc
      simp only [Option.some.injEq] at hstep
      subst hstep
      rw [hp, notExcluded_cons_excluded excl t rest hc.2] at h2
      refine ⟨h1, h2, h3, h4, h5, ?_, h7⟩
      intro hpc
      rw [hc.1] at hpc
      simp at hpc
    · exact Option.noConfusion hstep

theorem RunInv_nextTable (excl : String → Bool) (names : List String) (r r2 : Run)
    (hinv : RunInv excl names r) (hstep : runStep excl (.act .nextTable) r = some r2) :
    RunInv excl names r2 := by
  obtain ⟨h1, h2, h3, h4, h5, h6, h7⟩ := hinv
  simp only [runStep] at hstep
  cases hp : r.pending with
  | nil => rw [hp] at hstep; exact Option.noConfusion hstep
  | cons t rest =>
    rw [hp] at hstep
    simp only at hstep
    split at hstep
    · rename_i hc
      simp only [Option.some.injEq] at hstep
      subst hstep
      rw [hp, notExcluded_cons_kept excl t rest hc.2] at h2
      simp only [Run.counted, hc.1] at h1 h2
      simp only [RunInv, Run.counted, Run.running] at *
      simp_all
    · exact Option.noConfusion hstep

theorem RunInv_act (excl : String → Bool) (names : List String) (a : Action) (r r2 : Run)
    (hne : a ≠ .nextTable) (hinv : RunInv excl names r)
    (hstep : runStep excl (.act a) r = some r2) : RunInv excl names r2 := by
  obtain ⟨h1, h2, h3, h4, h5, h6, h7⟩ := hinv
  simp only [Run.counted, Run.running] at h1 h2 h3
  cases a <;> first
    | exact absurd rfl hne
    | (simp only [runStep] at hstep
       split at hstep
       · rename_i hc
         simp only [Option.some.injEq] at hstep
         subst hstep
         simp only [RunInv, Run.counted, Run.running]
         simp_all
         try omega
       · exact Option.noConfusion hstep)

theorem RunInv_step (excl : String → Bool) (names : List String) (a : RunAction) (r r2 : Run)
    (hinv : RunInv excl names r) (hstep : runStep excl a r = some r2) :
    RunInv excl names r2 := by
  cases a with
  | skipExcluded => exact RunInv_skip excl names r r2 hinv hstep
  | act b =>
    by_cases hb : b = .nextTable
    · subst hb
      exact RunInv_nextTable excl names r r2 hinv hstep
    · exact RunInv_act excl names b r r2 hb hinv hstep

theorem RunInv_runSteps (excl : String → Bool) (names : List String) (acts : List RunAction)
    (r r2 : Run) (hinv : RunInv excl names r) (hrun : runSteps excl acts r = some r2) :
    RunInv excl names r2 := by
  induction acts generalizing r with
  | nil =>
    simp only [runSteps, Option.some.injEq] at hrun
    subst hrun
    exact hinv
  | cons a rest ih =>
    simp only [runSteps] at hrun
    cases hs : runStep excl a r with
    | none => simp [hs] at hrun
    | some r1 =>
      rw [hs] at hrun
      exact ih r1 (RunInv_step excl names a r r1 hinv hs) hrun

theorem toSched_skip (excl : String → Bool) (r r2 : Run)
    (hstep : runStep excl .skipExcluded r = some r2) :
    r2.toSched excl = r.toSched excl := by
  simp only [runStep] at hstep
  cases hp : r.pending with
  | nil => rw [hp] at hstep; exact Option.noConfusion hstep
  | cons t rest =>
    rw [hp] at hstep
    simp only at hstep
    split at hstep
    · rename_i hc
      simp only [Option.some.injEq] at hstep
      subst hstep
      simp only [Run.toSched, hp, notExcluded_cons_excluded excl t rest hc.2]
    · exact Option.noConfusion hstep

theorem toSched_act (excl : String → Bool) (a : Action) (r r2 : Run)
    (hstep : runStep excl (.act a) r = some r2) :
    step a (r.toSched excl) = some (r2.toSched excl) := by
  cases a
  case nextTable =>
    simp only [runStep] at hstep
    cases hp : r.pending with
    | nil => rw [hp] at hstep; exact Option.noConfusion hstep
    | cons t rest =>
      rw [hp] at hstep
      simp only at hstep
      split at hstep
      · rename_i hc
        simp only [Option.some.injEq] at hstep
        subst hstep
        simp [step, Run.toSched, hp, notExcluded_cons_kept excl t rest hc.2, hc.1]
      · exact Option.noConfusion hstep
  all_goals
    simp only [runStep] at hstep
    split at hstep
    · rename_i hc
      simp only [Option.some.injEq] at hstep
      subst hstep
      simp_all [step, Run.toSched, notExcluded]
    · exact Option.noConfusion hstep

/-- Every state reached with the names stands for a state reached by the goroutines of
`Sched` with as many tables as there are enumerated names outside the exclusion set. -/
theorem reachable_toSched (excl : String → Bool) (names : List String) (r : Run)
    (h : RunReachable excl names r) :
    Reachable (notExcluded excl names).length (r.toSched excl) := by
  obtain ⟨acts, hrun⟩ := h
  have key : ∀ (acts : List RunAction) (r0 : Run) (pre : List Action),
      runActions pre (Sched.initial (notExcluded excl names).length) = some (r0.toSched excl) →
      runSteps excl acts r0 = some r →
      Reachable (notExcluded excl names).length (r.toSched excl) := by
    intro acts
    induction acts with
    | nil =>
      intro r0 pre hpre hr
      simp only [runSteps, Option.some.injEq] at hr
      subst hr
      exact ⟨pre, hpre⟩
    | cons a rest ih =>
      intro r0 pre hpre hr
      simp only [runSteps] at hr
      cases hs : runStep excl a r0 with
      | none => simp [hs] at hr
      | some r1 =>
        rw [hs] at hr
        cases a with
        | skipExcluded =>
          rw [← toSched_skip excl r0 r1 hs] at hpre
          exact ih r1 pre hpre hr
        | act b =>
          refine ih r1 (pre ++ [b]) ?_ hr
          rw [runActions_append, hpre]
          simp [runActions, toSched_act excl b r0 r1 hs]
  exact key acts (Run.initial names) [] rfl hrun

/-- C1: `MsSQLTypeToMySQL` is a total function that returns the fixed mapping on each of the
27 known names and `"TEXT"` on every other string, `"geometry"` and `"INT"` among them. -/
theorem MsSQLTypeToMySQL_table :
    knownTypes.length = 27 ∧
    knownTypes.map MsSQLTypeToMySQL =
      ["TINYINT(1)", "TINYINT", "SMALLINT", "INT", "BIGINT", "DECIMAL", "DECIMAL",
       "DECIMAL(6, 4)", "DECIMAL(19, 4)", "DOUBLE", "FLOAT", "DATE", "TIME", "DATETIME",
       "DATETIME", "DATETIME", "YEAR", "DATETIME", "TEXT", "TEXT", "TEXT", "TEXT", "TEXT",
       "TEXT", "BINARY", "VARBINARY(255)", "BLOB"] ∧
    (∀ s : String, s ∉ knownTypes → MsSQLTypeToMySQL s = "TEXT") ∧
    "geometry" ∉ knownTypes ∧ "INT" ∉ knownTypes ∧
    MsSQLTypeToMySQL "geometry" = "TEXT" ∧ MsSQLTypeToMySQL "INT" = "TEXT" := by
  refine ⟨rfl, by decide, ?_, by decide, by decide, by decide, by decide⟩
  intro s hs
  simp only [knownTypes, List.mem_cons, List.mem_singleton, List.not_mem_nil, or_false,
    not_or] at hs
  obtain ⟨h1, h2, h3, h4, h5, h6, h7, h8, h9, h10, h11, h12, h13, h14, h15, h16, h17, h18,
    h19, h20, h21, h22, h23, h24, h25, h26, h27⟩ := hs
  simp [MsSQLTypeToMySQL, *]

/-- C2: for every table name `t` and every column count `n >= 1` the placeholder text of the
table task is `n` question marks joined by single commas, with no comma before the first or
after the last, and it holds exactly `n` question marks; on a cursor of `n` columns the task
executes, for every row it copies, the statement made of that text between
"INSERT INTO `t` VALUES (" and ")" with the `n` scanned values of the row bound in column
order: for all rows when every step succeeds, and otherwise for the rows before the first
step that fails and for that row too when its scan and its INSERT succeeded. -/
theorem insert_statement_format (t : String) (n : Nat) (hn : 1 ≤ n) :
    placeholders n = some (String.intercalate "," (List.replicate n "?")) ∧
    (String.intercalate "," (List.replicate n "?")).data.count '?' = n ∧
    (∀ (env : TaskEnv) (data : Cursor), env.query = .ok data → data.cols.length = n →
      (∀ st ∈ data.steps, st.row.length = n) →
      ((∀ st ∈ data.steps, st.succeeds) →
        (runTask t env).execs = data.steps.map (fun st =>
          ("INSERT INTO `" ++ t ++ "` VALUES (" ++
              String.intercalate "," (List.replicate n "?") ++ ")", st.row))) ∧
      (∀ (pre post : List RowStep) (st : RowStep),
        data.steps = pre ++ st :: post → (∀ s ∈ pre, s.succeeds) → ¬ st.succeeds →
        (runTask t env).execs
          = (pre ++ (if st.scanErr = none ∧ st.execErr = none then [st] else [])).map
              (fun s => ("INSERT INTO `" ++ t ++ "` VALUES (" ++
                String.intercalate "," (List.replicate n "?") ++ ")", s.row)))) := by
  obtain ⟨m, rfl⟩ : ∃ m, n = m + 1 := ⟨n - 1, by omega⟩
  refine ⟨placeholders_succ m, count_qmark_intercalate _, ?_⟩
  intro env data hq hcols hrows
  constructor
  · intro hok
    have h := copyRows_append_ok t (String.intercalate "," (List.replicate (m + 1) "?"))
      (m + 1) data.steps [] hok
    rw [List.append_nil] at h
    simp only [runTask, hq, hcols, placeholders_succ, h]
    rw [map_bindVals_eq t _ (m + 1) data.steps hrows]
    simp [copyRows, insertStatement]
  · intro pre post st hsteps hok hfail
    have h := copyRows_append_ok t (String.intercalate "," (List.replicate (m + 1) "?"))
      (m + 1) pre (st :: post) hok
    have hmem : ∀ s ∈ pre ++ (if st.scanErr = none ∧ st.execErr = none then [st] else []),
        s.row.length = m + 1 := by
      intro s hs
      apply hrows s
      rw [hsteps]
      rcases List.mem_append.mp hs with h1 | h1
      · exact List.mem_append_left _ h1
      · split at h1
        · rw [List.mem_singleton.mp h1]
          exact List.mem_append_right _ (List.mem_cons_self _ _)
        · simp at h1
    simp only [runTask, hq, hcols, placeholders_succ, hsteps, h,
      copyRows_first_failure t _ (m + 1) st post hfail]
    rw [← List.map_append, map_bindVals_eq t _ (m + 1) _ hmem]
    simp [insertStatement]

/-- The statement of C2 at the table `orders` with three columns and two rows that are both
copied: the two INSERTs executed, with their statement text and bound values. -/
theorem insert_statement_format_witness :
    placeholders 3 = some "?,?,?" ∧
    (runTask "orders" ⟨.ok ⟨["id", "name", "paid"],
        [⟨[Value.int64 1, Value.str "x", Value.bool true], none, none, none⟩,
         ⟨[Value.int64 2, Value.null, Value.bool false], none, none, none⟩], none⟩⟩).execs
      = [("INSERT INTO `orders` VALUES (?,?,?)",
            [Value.int64 1, Value.str "x", Value.bool true]),
         ("INSERT INTO `orders` VALUES (?,?,?)",
            [Value.int64 2, Value.null, Value.bool false])] :=
  ⟨(insert_statement_format "orders" 3 (by decide)).1.trans (by decide),
   (((insert_statement_format "orders" 3 (by decide)).2.2
      ⟨.ok ⟨["id", "name", "paid"],
        [⟨[Value.int64 1, Value.str "x", Value.bool true], none, none, none⟩,
         ⟨[Value.int64 2, Value.null, Value.bool false], none, none, none⟩], none⟩⟩
      ⟨["id", "name", "paid"],
        [⟨[Value.int64 1, Value.str "x", Value.bool true], none, none, none⟩,
         ⟨[Value.int64 2, Value.null, Value.bool false], none, none, none⟩], none⟩
      rfl rfl (by decide)).1 (by decide)).trans (by decide)⟩

/-- C3, the claim as stated fails: for the table `users` with the columns (id, int),
(name, varchar(50)), (created, datetime) the statement that `migrateSchema` generates is not
the text without line breaks after the opening parenthesis and after the commas. -/
theorem create_table_users_not_single_line :
    ¬ (migrateSchemaStatements
        [⟨"users", "id", "int"⟩, ⟨"users", "name", "varchar(50)"⟩,
         ⟨"users", "created", "datetime"⟩]
      = [("users", "CREATE TABLE `users` (`id` INT,`name` TEXT,`created` DATETIME\n);")]) := by
  decide

/-- C3 as amended: for every table name and non-empty column list the generated statement is
"CREATE TABLE `<table>` (" and a newline, the column items joined by a comma and a newline,
then a newline and ");"; for the table `users` of the scenario it is the text shown. -/
theorem create_table_format (t : String) (cols : List ColumnInfo) (hne : cols ≠ []) :
    createTableStatement t cols
      = "CREATE TABLE `" ++ t ++ "` (\n" ++
          String.intercalate ",\n"
            (cols.map (fun c => "`" ++ c.columnName ++ "` " ++ MsSQLTypeToMySQL c.dataType))
          ++ "\n);" ∧
    migrateSchemaStatements
        [⟨"users", "id", "int"⟩, ⟨"users", "name", "varchar(50)"⟩,
         ⟨"users", "created", "datetime"⟩]
      = [("users", "CREATE TABLE `users` (\n`id` INT,\n`name` TEXT,\n`created` DATETIME\n);")] :=
  ⟨createTableStatement_eq t cols hne, by decide⟩

/-- The statement of the amended C3 at a table with two columns. -/
theorem create_table_format_witness :
    createTableStatement "t" [⟨"a", "bit"⟩, ⟨"b", "money"⟩]
      = "CREATE TABLE `t` (\n`a` TINYINT(1),\n`b` DECIMAL(19, 4)\n);" :=
  (create_table_format "t" [⟨"a", "bit"⟩, ⟨"b", "money"⟩] (by decide)).1.trans (by decide)

/-- C4: for every list of introspected rows and every table `t` occurring in it,
`migrateSchema` generates exactly one statement for `t`, and it is "CREATE TABLE `t` (",
then the items of the rows of `t` in the order the rows were read, one item per row, each the
quoted column name and `MsSQLTypeToMySQL` of its type, consecutive items separated by a comma
(and a newline), no comma after the last item, and ");" at the end. -/
theorem create_table_lists_columns (rows : List SchemaRow) (t : String)
    (ht : t ∈ rows.map (fun r => r.tableName)) :
    ((migrateSchemaStatements rows).map Prod.fst).count t = 1 ∧
    ∀ stmt, (t, stmt) ∈ migrateSchemaStatements rows ↔
      stmt = "CREATE TABLE `" ++ t ++ "` (\n" ++
        String.intercalate ",\n"
          (((rows.filter (fun r => r.tableName = t)).map
              (fun r => (⟨r.columnName, r.dataType⟩ : ColumnInfo))).map
            (fun c => "`" ++ c.columnName ++ "` " ++ MsSQLTypeToMySQL c.dataType))
        ++ "\n);" := by
  obtain ⟨hnd, hget, hkeys⟩ := buildTables_inv rows
  have hfst : (migrateSchemaStatements rows).map Prod.fst = (buildTables rows).map Prod.fst := by
    simp [migrateSchemaStatements, List.map_map, Function.comp_def]
  have hkey : t ∈ (buildTables rows).map Prod.fst := (hkeys t).mpr ht
  have hstmt := createTableStatement_eq t (columnsOf rows t) (columnsOf_ne_nil rows t ht)
  refine ⟨?_, ?_⟩
  · rw [hfst]
    exact List.count_eq_one_of_mem hnd hkey
  · intro stmt
    constructor
    · intro hmem
      obtain ⟨e, he, heq⟩ := List.mem_map.mp hmem
      obtain ⟨k, v⟩ := e
      simp only [Prod.mk.injEq] at heq
      obtain ⟨hk, hs⟩ := heq
      subst hk
      have hv : v = columnsOf rows k := by
        rw [← hget k, TableMap.get_of_mem _ hnd k v he]
      rw [← hs, hv]
      exact hstmt
    · intro hs
      have hmem := TableMap.mem_of_key (buildTables rows) t hkey
      rw [hget t] at hmem
      rw [hs]
      have h2 : (t, createTableStatement t (columnsOf rows t)) ∈ migrateSchemaStatements rows :=
        List.mem_map.mpr ⟨(t, columnsOf rows t), hmem, rfl⟩
      rw [hstmt] at h2
      exact h2

/-- The statement of C4 at rows of two tables that are interleaved. -/
theorem create_table_lists_columns_witness :
    ((migrateSchemaStatements
        [⟨"a", "x", "int"⟩, ⟨"b", "y", "bit"⟩, ⟨"a", "z", "money"⟩]).map Prod.fst).count "a" = 1 ∧
    (("a", "CREATE TABLE `a` (\n`x` INT,\n`z` DECIMAL(19, 4)\n);") ∈
      migrateSchemaStatements [⟨"a", "x", "int"⟩, ⟨"b", "y", "bit"⟩, ⟨"a", "z", "money"⟩]) :=
  ⟨(create_table_lists_columns
      [⟨"a", "x", "int"⟩, ⟨"b", "y", "bit"⟩, ⟨"a", "z", "money"⟩] "a" (by decide)).1,
   ((create_table_lists_columns
      [⟨"a", "x", "int"⟩, ⟨"b", "y", "bit"⟩, ⟨"a", "z", "money"⟩] "a" (by decide)).2 _).mpr
      (by decide)⟩

/-- C5, the claim as stated fails: for the enumeration `[a, b, c]` with `b` excluded, when
the query of one task fails and its error is received first, the main goroutine ends the
process in `logs.FatalLog` with `tablesCount = 2` and one outcome received, the other task
still waiting at `errChan <- nil` and no step left; and a task whose cursor has no column
ends in the panic of the slice expression and sends no outcome at all. -/
theorem fatal_exit_leaves_outcome_undelivered :
    (∃ r, runSteps (fun t => t = "b")
        [.act .nextTable, .act .acquire, .act .spawn, .skipExcluded, .act .nextTable,
         .act .acquire, .act .spawn, .act .endOfTables, .act .queryOk, .act .copyDone,
         .act .queryFail, .act .deliverQueryErr, .act .exitUnreleased]
        (Run.initial ["a", "b", "c"]) = some r ∧
      (∀ a, runStep (fun t => t = "b") a r = none) ∧
      r.pc = .fatal ∧ r.started = ["a", "c"] ∧ r.tablesCount = 2 ∧ r.received = 1 ∧
      r.sendingNil = 1) ∧
    (runTask "a" ⟨.ok ⟨[], [], none⟩⟩).sent = [] ∧
    (runTask "a" ⟨.ok ⟨[], [], none⟩⟩).panicked = true := by
  refine ⟨⟨Run.mk .fatal [] "c" ["a", "c"] 2 1 2 0 0 1 0 0 0 0 1, by decide, ?_, rfl, rfl,
    rfl, rfl, rfl⟩, by decide, by decide⟩
  intro a
  rcases a with _ | a
  · rfl
  · cases a <;> rfl

/-- C5 as amended: in every state that `runMigration` reaches, for every enumerated list of
names and every exclusion set, `tablesCount` counts an initial part of the enumerated names
outside the exclusion set, and once the scheduling loop has ended it equals their number and
the tasks started are those names in order (two tasks, `a` and `c`, for `[a, b, c]` with `b`
excluded); the outcomes received number exactly the tasks that are past their send, at most
the tasks started, and exactly `tablesCount` once the receiving loop has ended; and every
task whose cursor, when it opens, has at least one column sends exactly one outcome
whichever way it ends. -/
theorem outcomes_received_once (excludedTables : String → Bool) (names : List String)
    (r : Run) (h : RunReachable excludedTables names r) :
    r.tablesCount = r.counted.length ∧
    (∃ rest, r.counted ++ rest = names.filter (fun t => !excludedTables t)) ∧
    (r.pc = .collect ∨ r.pc = .finished ∨ r.pc = .fatal →
      r.tablesCount = (names.filter (fun t => !excludedTables t)).length ∧
      r.started = names.filter (fun t => !excludedTables t)) ∧
    (∀ r2, RunReachable (fun t => t = "b") ["a", "b", "c"] r2 →
      r2.pc = .collect ∨ r2.pc = .finished ∨ r2.pc = .fatal →
      r2.tablesCount = 2 ∧ r2.started = ["a", "c"]) ∧
    r.received = r.deferred + r.returning + r.exited ∧
    r.received ≤ r.started.length ∧
    r.started.length ≤ r.tablesCount ∧
    (r.pc = .finished →
      r.received = r.tablesCount ∧
      r.received = (names.filter (fun t => !excludedTables t)).length) ∧
    (∀ (t : String) (env : TaskEnv), (∀ data, env.query = .ok data → data.cols ≠ []) →
      (runTask t env).sent.length = 1) := by
  have past : ∀ (excl : String → Bool) (ns : List String) (q : Run),
      RunReachable excl ns q → q.pc = .collect ∨ q.pc = .finished ∨ q.pc = .fatal →
      q.tablesCount = (ns.filter (fun t => !excl t)).length ∧
      q.started = ns.filter (fun t => !excl t) := by
    intro excl ns q hq hpc
    obtain ⟨acts, hrun⟩ := hq
    obtain ⟨h1, h2, _, _, _, h6, _⟩ :=
      RunInv_runSteps excl ns acts (Run.initial ns) q (RunInv_initial excl ns) hrun
    have hcount : q.counted = q.started := by
      unfold Run.counted
      rcases hpc with hp | hp | hp <;> simp [hp]
    rw [h6 hpc, hcount] at h2
    rw [hcount] at h1
    simp only [notExcluded, List.filter_nil, List.append_nil] at h2
    exact ⟨by rw [h1, h2], h2⟩
  obtain ⟨acts, hrun⟩ := h
  obtain ⟨h1, h2, h3, h4, h5, h6, h7⟩ :=
    RunInv_runSteps excludedTables names acts (Run.initial names) r
      (RunInv_initial excludedTables names) hrun
  have hlen : r.started.length ≤ r.counted.length := by
    simp [Run.counted]
  refine ⟨h1, ⟨_, h2⟩, past excludedTables names r ⟨acts, hrun⟩, ?_, h4, ?_, ?_, ?_, ?_⟩
  · intro r2 hr2 hpc
    exact past (fun t => t = "b") ["a", "b", "c"] r2 hr2 hpc
  · unfold Run.running at h3
    omega
  · omega
  · intro hfin
    have hp := past excludedTables names r ⟨acts, hrun⟩ (Or.inr (Or.inl hfin))
    exact ⟨h7 hfin, by rw [h7 hfin, hp.1]⟩
  · intro t env hcols
    exact runTask_sent_length t env hcols

/-- The statement of the amended C5 at the end of a run over `[a, b, c]` with `b` excluded in
which both tasks succeed: two tasks, `a` and `c`, and two outcomes received. -/
theorem outcomes_received_once_witness :
    RunReachable (fun t => t = "b") ["a", "b", "c"]
      (Run.mk .finished [] "c" ["a", "c"] 2 2 0 0 0 0 0 0 0 0 2) ∧
    (Run.mk .finished [] "c" ["a", "c"] 2 2 0 0 0 0 0 0 0 0 2).tablesCount
      = (["a", "b", "c"].filter (fun t => !decide (t = "b"))).length ∧
    (Run.mk .finished [] "c" ["a", "c"] 2 2 0 0 0 0 0 0 0 0 2).received
      = (["a", "b", "c"].filter (fun t => !decide (t = "b"))).length :=
  have hr : RunReachable (fun t => t = "b") ["a", "b", "c"]
      (Run.mk .finished [] "c" ["a", "c"] 2 2 0 0 0 0 0 0 0 0 2) :=
    ⟨[.act .nextTable, .act .acquire, .act .spawn, .skipExcluded, .act .nextTable,
      .act .acquire, .act .spawn, .act .endOfTables, .act .queryOk, .act .copyDone,
      .act .queryOk, .act .copyDone, .act .deliverNil, .act .deliverNil, .act .release,
      .act .release, .act .finish], by decide⟩
  have h := outcomes_received_once (fun t => t = "b") ["a", "b", "c"]
    (Run.mk .finished [] "c" ["a", "c"] 2 2 0 0 0 0 0 0 0 0 2) hr
  ⟨hr, (h.2.2.1 (Or.inr (Or.inl rfl))).1, (h.2.2.2.2.2.2.2.1 rfl).2⟩

/-- C6, the code at the failing input: a task whose query `SELECT * FROM [t]` fails sends
the error and returns before its `defer` statement, so the deferred `<-sem` never runs; with
one table, after the only task has exited, one slot is still held. A task whose cursor opens
does run the deferred function. -/
theorem slot_kept_after_query_failure (t : String) (e : GoError) (data : Cursor) :
    (runTask t ⟨.error e⟩).released = false ∧
    (runTask t ⟨.error e⟩).sent = [some e] ∧
    (runTask t ⟨.ok data⟩).released = true ∧
    (∃ s, runActions [.nextTable, .acquire, .spawn, .queryFail, .endOfTables,
        .deliverQueryErr, .exitUnreleased] (Sched.initial 1) = some s ∧
      s.running = 0 ∧ s.exited = 1 ∧ s.sem = 1) := by
  refine ⟨rfl, rfl, ?_, ⟨_, rfl, by decide, by decide, by decide⟩⟩
  cases h : placeholders data.cols.length <;> simp [runTask, h]

/-- C7, the code at the failing input: a task whose cursor opens and whose iteration then
stops on an error, `data.Next()` returning `false` with `data.Err()` non-nil, sends `nil` -
the outcome of a success - and not that error, here after no row and after one copied row;
the task does the same whatever `data.Err()` holds once the rows have ended. -/
theorem iteration_error_reported_as_success (t c : String) (cs : List String) (e : GoError)
    (row : List Value) (steps : List RowStep) :
    (runTask t ⟨.ok ⟨c :: cs, [], some e⟩⟩).sent = [none] ∧
    (runTask t ⟨.ok ⟨c :: cs, [⟨row, none, none, none⟩], some e⟩⟩).sent = [none] ∧
    runTask t ⟨.ok ⟨c :: cs, steps, some e⟩⟩ = runTask t ⟨.ok ⟨c :: cs, steps, none⟩⟩ := by
  have hp := placeholders_succ cs.length
  refine ⟨?_, ?_, rfl⟩
  · simp only [runTask, List.length_cons, hp]
    rfl
  · simp only [runTask, List.length_cons, hp]
    rfl

/-- C8: in one table copy on a cursor with at least one column, (1) if every row is scanned
and inserted without error, the INSERTs executed are one per row and carry the rows read, in
cursor order; (2) if the rows before row `k` are copied without error and the INSERT of row
`k` fails with `e`, the INSERTs executed successfully carry exactly the rows before `k` in
order, `k` rows were read and `k` INSERTs attempted, so that no later row is read or
inserted, and the outcome of the task is `e`. -/
theorem inserts_follow_cursor_order (t : String) (env : TaskEnv) (data : Cursor)
    (hq : env.query = .ok data) (hcols : data.cols ≠ [])
    (hrows : ∀ st ∈ data.steps, st.row.length = data.cols.length) :
    ((∀ st ∈ data.steps, st.succeeds) →
      (runTask t env).execs.map Prod.snd = data.steps.map (fun st => st.row) ∧
      (runTask t env).execCalls = data.steps.length ∧
      (runTask t env).rowsRead = data.steps.length ∧
      (runTask t env).sent = [none]) ∧
    (∀ (pre post : List RowStep) (st : RowStep) (e : GoError),
      data.steps = pre ++ st :: post → (∀ s ∈ pre, s.succeeds) →
      st.scanErr = none → st.execErr = some e →
      (runTask t env).execs.map Prod.snd = pre.map (fun s => s.row) ∧
      (runTask t env).execCalls = pre.length + 1 ∧
      (runTask t env).rowsRead = pre.length + 1 ∧
      (runTask t env).sent = [some e]) := by
  obtain ⟨m, hm⟩ : ∃ m, data.cols.length = m + 1 := by
    have h := List.length_pos.mpr hcols
    exact ⟨data.cols.length - 1, by omega⟩
  have hbind : ∀ l : List RowStep, (∀ s ∈ l, s ∈ data.steps) →
      l.map (fun s => bindVals (m + 1) s.row) = l.map (fun s => s.row) := by
    intro l hl
    apply List.map_congr_left
    intro s hs
    have h := hrows s (hl s hs)
    rw [hm] at h
    rw [← h]
    exact bindVals_self s.row
  constructor
  · intro hok
    have h := copyRows_append_ok t (String.intercalate "," (List.replicate (m + 1) "?"))
      (m + 1) data.steps [] hok
    rw [List.append_nil] at h
    simp only [runTask, hq, hm, placeholders_succ, h, List.map_append, List.map_map,
      Function.comp_def]
    refine ⟨?_, ?_, ?_, ?_⟩
    · simpa [copyRows] using hbind data.steps (fun s hs => hs)
    · simp [copyRows]
    · simp [copyRows]
    · simp [copyRows]
  · intro pre post st e hsteps hok hscan hexec
    have h := copyRows_append_ok t (String.intercalate "," (List.replicate (m + 1) "?"))
      (m + 1) pre (st :: post) hok
    have hst : copyRows t (String.intercalate "," (List.replicate (m + 1) "?")) (m + 1)
        (st :: post)
        = { sent := [some e], rowsRead := 1, execCalls := 1, execs := [],
            released := false, panicked := false } := by
      rw [copyRows]
      simp only [hscan, hexec]
    simp only [runTask, hq, hm, placeholders_succ, hsteps, h, hst, List.map_append,
      List.map_map, Function.comp_def, List.append_nil, List.map_nil]
    refine ⟨?_, by omega, by omega, trivial⟩
    exact hbind pre (fun s hs => by rw [hsteps]; exact List.mem_append_left _ hs)

/-- The statement of C8 at a table of three rows of which the second fails to insert. -/
theorem inserts_follow_cursor_order_witness :
    (runTask "orders" ⟨.ok ⟨["id", "name"],
        [⟨[Value.int64 1, Value.str "x"], none, none, none⟩,
         ⟨[Value.int64 2, Value.str "y"], none, some ⟨"duplicate entry"⟩, none⟩,
         ⟨[Value.int64 3, Value.str "z"], none, none, none⟩], none⟩⟩).execs.map Prod.snd
      = [[Value.int64 1, Value.str "x"]] ∧
    (runTask "orders" ⟨.ok ⟨["id", "name"],
        [⟨[Value.int64 1, Value.str "x"], none, none, none⟩,
         ⟨[Value.int64 2, Value.str "y"], none, some ⟨"duplicate entry"⟩, none⟩,
         ⟨[Value.int64 3, Value.str "z"], none, none, none⟩], none⟩⟩).sent
      = [some ⟨"duplicate entry"⟩] :=
  have h := (inserts_follow_cursor_order "orders" ⟨.ok ⟨["id", "name"],
        [⟨[Value.int64 1, Value.str "x"], none, none, none⟩,
         ⟨[Value.int64 2, Value.str "y"], none, some ⟨"duplicate entry"⟩, none⟩,
         ⟨[Value.int64 3, Value.str "z"], none, none, none⟩], none⟩⟩
      ⟨["id", "name"],
        [⟨[Value.int64 1, Value.str "x"], none, none, none⟩,
         ⟨[Value.int64 2, Value.str "y"], none, some ⟨"duplicate entry"⟩, none⟩,
         ⟨[Value.int64 3, Value.str "z"], none, none, none⟩], none⟩
      rfl (by decide) (by decide)).2
    [⟨[Value.int64 1, Value.str "x"], none, none, none⟩]
    [⟨[Value.int64 3, Value.str "z"], none, none, none⟩]
    ⟨[Value.int64 2, Value.str "y"], none, some ⟨"duplicate entry"⟩, none⟩
    ⟨"duplicate entry"⟩ rfl (by decide) rfl rfl
  ⟨h.1, h.2.2.2⟩

/-- C9: in every state that `runMigration` reaches, for every number of tables and every
interleaving of the goroutines, the number of tasks started and not yet exited is at most
the pool capacity 150. -/
theorem running_tasks_within_capacity (n : Nat) (s : Sched) (h : Reachable n s) :
    s.running ≤ 150 := by
  obtain ⟨acts, hrun⟩ := h
  have hinv := SlotInv_runActions acts (Sched.initial n) s (SlotInv_initial n) hrun
  obtain ⟨h1, h2⟩ := hinv
  unfold poolCapacity at h2
  omega

/-- The statement of C9 at the state in which two of three tables have a running task. -/
theorem running_tasks_within_capacity_witness :
    (Sched.mk .next 1 2 0 2 1 1 0 0 0 0 0 0).running ≤ 150 :=
  running_tasks_within_capacity 3 (Sched.mk .next 1 2 0 2 1 1 0 0 0 0 0 0)
    ⟨[.nextTable, .acquire, .spawn, .queryOk, .nextTable, .acquire, .spawn], rfl⟩

/-- C10, the code at the failing input: with more than 150 tables and no failure of any
task, `runMigration` reaches a state in which 150 tasks wait at `errChan <- nil`, the main
goroutine waits at `sem <- true` for table 151, no goroutine can take a step, and no outcome
has been received. -/
theorem stuck_beyond_capacity (m : Nat) :
    ReachableWithoutFailure (151 + m) (Sched.saturated m) ∧
    Stuck (Sched.saturated m) ∧
    (Sched.saturated m).received = 0 ∧
    (Sched.saturated m).received < 151 + m := by
  refine ⟨⟨(List.replicate 150 scheduleRound).flatten ++ [Action.nextTable],
    no_failure_in_rounds 150, ?_⟩, ?_, rfl, ?_⟩
  · have h := rounds_blocked (m + 1) 150 (by decide)
    have hn : m + 1 + 150 = 151 + m := by omega
    rw [hn] at h
    rw [runActions_append, h]
    simp [runActions, step, Sched.blocked, Sched.saturated]
  · intro a
    cases a <;> simp [step, Sched.saturated, poolCapacity]
  · simp only [Sched.saturated]
    omega

end SqlToMysql
